import Mathlib

/-!
Verification of the exchange (data-shuffle) transport layer described in
`spec.md` against the behavior exercised by `ExchangeClientTest`.

The repository ships only the tests of the exchange client; the bodies of
`ExchangeQueue`, `ExchangeClient` and the producer-side output buffer are
not under `src/`.  The definitions below are therefore modelled from the
spec (each such definition says so in its doc comment), faithful to the
spec's words and consistent with the concrete traces the tests pin down.
-/

/-- A page: an immutable, size-accounted unit of serialized data.  The
`source` field is a ghost annotation recording which source enqueued the
page; it is used only to state per-source ordering properties. -/
structure Page where
  source : Nat
  size : Nat
deriving DecidableEq, Repr

/-- Total byte size of a list of pages. -/
def sumSizes (l : List Page) : Nat := (l.map Page.size).sum

/-- Modelled from the spec: the state of the Exchange Queue (class
`ExchangeQueue`, not present under `src/`): the FIFO of received pages, a
count of registered sources, a count of sources that have not yet signaled
end-of-stream, the no-more-sources flag, the closed flag, the running
buffered-byte total, and the cumulative statistics (peak bytes, received
pages, received bytes) plus the number of outstanding consumer
continuations. -/
structure ExchangeQueue where
  queue : List Page
  numSources : Nat
  numPending : Nat
  noMoreSourcesFlag : Bool
  closed : Bool
  totalBytes : Nat
  peakBytes : Nat
  receivedPages : Nat
  receivedBytes : Nat
  numWaitingConsumers : Nat
deriving DecidableEq, Repr

/-- The initial, empty Exchange Queue. -/
def ExchangeQueue.init : ExchangeQueue :=
  ⟨[], 0, 0, false, false, 0, 0, 0, 0, 0⟩

/-- Modelled from the spec: `addSource()` registers one more expected
source (a no-op once the source set was declared closed or the queue was
closed). -/
def ExchangeQueue.addSource (s : ExchangeQueue) : ExchangeQueue :=
  if s.noMoreSourcesFlag || s.closed then s
  else { s with numSources := s.numSources + 1, numPending := s.numPending + 1 }

/-- Modelled from the spec: `noMoreSources()` declares the source set
closed, enabling terminal end-of-stream detection. -/
def ExchangeQueue.noMoreSources (s : ExchangeQueue) : ExchangeQueue :=
  { s with noMoreSourcesFlag := true }

/-- Modelled from the spec: the queue is at end iff it was closed, or the
source set is declared closed, every registered source has signaled
end-of-stream, and no pages remain. -/
def ExchangeQueue.checkAtEnd (s : ExchangeQueue) : Bool :=
  s.closed || (s.noMoreSourcesFlag && s.numPending == 0 && s.queue.isEmpty)

/-- Modelled from the spec: `enqueue(page)` for a data (non-sentinel)
page: appends the page, updates byte accounting and the received-page
statistics, tracks the peak buffered-byte high-water mark, and resolves
the oldest outstanding consumer continuation if any.  Pages enqueued after
close are dropped. -/
def ExchangeQueue.enqueuePage (s : ExchangeQueue) (p : Page) : ExchangeQueue :=
  if s.closed then s
  else
    let tb := s.totalBytes + p.size
    { s with
      queue := s.queue ++ [p]
      totalBytes := tb
      peakBytes := max s.peakBytes tb
      receivedPages := s.receivedPages + 1
      receivedBytes := s.receivedBytes + p.size
      numWaitingConsumers := s.numWaitingConsumers - 1 }

/-- Modelled from the spec: `enqueue(nullptr)`, the end sentinel of one
source: decrements the count of sources that have not yet signaled end;
when this makes the queue terminal, all outstanding consumer continuations
resolve. -/
def ExchangeQueue.enqueueEnd (s : ExchangeQueue) : ExchangeQueue :=
  if s.closed then s
  else
    let s' := { s with numPending := s.numPending - 1 }
    if s'.checkAtEnd then { s' with numWaitingConsumers := 0 } else s'

/-- Modelled from the spec: the drain loop of `next(maxBytes)`: pages are
taken from the front of the queue while the accumulated byte total stays
within `maxBytes`; the first page is always taken, so a single oversized
page is still returned (a page is never split).  Returns the taken pages
and the remaining queue. -/
def takePages (maxBytes : Nat) : List Page → Nat → Bool → List Page × List Page
  | [], _, _ => ([], [])
  | p :: rest, acc, tookAny =>
    if tookAny && decide (maxBytes < acc + p.size) then ([], p :: rest)
    else
      let r := takePages maxBytes rest (acc + p.size) true
      (p :: r.1, r.2)

/-- Result of one `next(maxBytes)` call: the batch of pages, the reported
`atEnd` flag, whether a valid pending continuation was handed out, and the
successor queue state. -/
structure NextResult where
  pages : List Page
  atEnd : Bool
  contValid : Bool
  state : ExchangeQueue
deriving DecidableEq, Repr

/-- Modelled from the spec: `next(maxBytes) -> (pages, atEnd,
continuation)`.  On a closed queue it returns an empty batch, `atEnd =
true` and an invalid continuation.  Otherwise it drains pages up to
`maxBytes` (always at least one page if any is queued); if the batch is
empty and the queue is not at end, a pending continuation is registered
and returned valid. -/
def ExchangeQueue.next (s : ExchangeQueue) (maxBytes : Nat) : NextResult :=
  if s.closed then ⟨[], true, false, s⟩
  else
    let r := takePages maxBytes s.queue 0 false
    let s' := { s with
      queue := r.2
      totalBytes := s.totalBytes - sumSizes r.1 }
    if r.1.isEmpty && !s'.checkAtEnd then
      ⟨[], false, true, { s' with numWaitingConsumers := s'.numWaitingConsumers + 1 }⟩
    else
      ⟨r.1, s'.checkAtEnd, false, s'⟩

/-- Modelled from the spec: `close()` releases all buffered pages, makes
the queue permanently at end and resolves every outstanding consumer
continuation. -/
def ExchangeQueue.close (s : ExchangeQueue) : ExchangeQueue :=
  { s with closed := true, queue := [], totalBytes := 0, numWaitingConsumers := 0 }

/-- Operations a client and its sources can apply to the Exchange Queue;
a list of these describes one (serialized) execution. -/
inductive QOp where
  | addSource
  | noMoreSources
  | enqueuePage (p : Page)
  | enqueueEnd
  | doNext (maxBytes : Nat)
  | close
deriving DecidableEq, Repr

/-- One step of an execution. -/
def applyOp (s : ExchangeQueue) : QOp → ExchangeQueue
  | .addSource => s.addSource
  | .noMoreSources => s.noMoreSources
  | .enqueuePage p => s.enqueuePage p
  | .enqueueEnd => s.enqueueEnd
  | .doNext m => (s.next m).state
  | .close => s.close

/-- Run an execution from a given state. -/
def runFrom (s : ExchangeQueue) (ops : List QOp) : ExchangeQueue :=
  ops.foldl applyOp s

/-- Run an execution from the initial state; every reachable queue state
is `runOps ops` for some op list. -/
def runOps (ops : List QOp) : ExchangeQueue :=
  runFrom ExchangeQueue.init ops

/-- The data pages an execution enqueues, in global order. -/
def traceEnqueued : List QOp → List Page
  | [] => []
  | .enqueuePage p :: rest => p :: traceEnqueued rest
  | _ :: rest => traceEnqueued rest

/-- The pages the consumer drains along an execution from `s`, in the
order the batches return them. -/
def traceDrained (s : ExchangeQueue) : List QOp → List Page
  | [] => []
  | .doNext m :: rest => (s.next m).pages ++ traceDrained (applyOp s (.doNext m)) rest
  | op :: rest => traceDrained (applyOp s op) rest

/-- The list `l₁` is an order-preserving prefix of the list `l₂`. -/
def prefixOf {α : Type} (l₁ l₂ : List α) : Prop := ∃ t, l₁ ++ t = l₂

/-- Structural invariant satisfied by every reachable Exchange Queue
state: byte accounting matches the buffered pages, a closed queue holds
no pages, and peak bytes lies between the current buffered total and the
total bytes ever received. -/
structure QInv (s : ExchangeQueue) : Prop where
  bytes_eq : s.totalBytes = sumSizes s.queue
  closed_empty : s.closed = true → s.queue = []
  peak_ge : s.totalBytes ≤ s.peakBytes
  peak_le : s.peakBytes ≤ s.receivedBytes

/-- Modelled from the spec: the `averageReceivedPageBytes` statistic of
`stats()`: total received bytes divided by the number of received pages,
with truncating integer division (0 when no page was received). -/
def ExchangeQueue.averageReceivedPageBytes (s : ExchangeQueue) : Nat :=
  s.receivedBytes / s.receivedPages

/-- Modelled from the spec: the Producer Buffer state for one destination
of one task (the output-buffer manager is not present under `src/`): the
ordered sequence of buffered pages awaiting consumption, the byte total,
the byte-size ceiling, the no-more-data flag, and the count of pending
suspended producers (continuation tokens). -/
structure ProducerBuffer where
  pages : List Page
  bufferedBytes : Nat
  ceiling : Nat
  noMoreDataFlag : Bool
  numBlockedProducers : Nat
deriving DecidableEq, Repr

/-- Result of a producer-side enqueue: whether the producer is blocked
(its continuation pending) and the successor buffer state. -/
structure EnqueueResult where
  blocked : Bool
  state : ProducerBuffer
deriving DecidableEq, Repr

/-- Modelled from the spec: `enqueue(taskId, destination, page)` adds the
page and updates byte accounting; the call returns blocked with a pending
continuation when the destination's buffered bytes reach the configured
ceiling (Scenario C pins the boundary: with ceiling = 2×page-size the
second page blocks), and non-blocked — its continuation resolving
immediately — while they stay strictly under it. -/
def ProducerBuffer.enqueue (s : ProducerBuffer) (p : Page) : EnqueueResult :=
  let tb := s.bufferedBytes + p.size
  let blocked : Bool := decide (s.ceiling ≤ tb)
  ⟨blocked,
    { s with
      pages := s.pages ++ [p]
      bufferedBytes := tb
      numBlockedProducers :=
        s.numBlockedProducers + (if blocked then 1 else 0) }⟩

/-- Modelled from the spec: `acknowledge(taskId, sequenceUpTo)` marks the
first `k` pages consumed, releases their bytes, and resolves the blocked
producers (in FIFO order) once the buffered bytes fall back under the
ceiling. -/
def ProducerBuffer.acknowledge (s : ProducerBuffer) (k : Nat) : ProducerBuffer :=
  let nb := s.bufferedBytes - sumSizes (s.pages.take k)
  { s with
    pages := s.pages.drop k
    bufferedBytes := nb
    numBlockedProducers :=
      if nb < s.ceiling then 0 else s.numBlockedProducers }

/-- Modelled from the spec: `noMoreData(taskId)` marks the destination
exhausted; reads return an end sentinel once the remaining pages drain. -/
def ProducerBuffer.noMoreData (s : ProducerBuffer) : ProducerBuffer :=
  { s with noMoreDataFlag := true }

/-- Modelled from the spec: the consumer-side read from the Producer
Buffer: pages up to `maxBytes` (at least one is returned if any is
buffered), and the end-of-data flag, true once the buffer is drained and
no-more-data was signaled. -/
def ProducerBuffer.getData (s : ProducerBuffer) (maxBytes : Nat) :
    List Page × Bool :=
  let r := takePages maxBytes s.pages 0 false
  (r.1, r.2.isEmpty && s.noMoreDataFlag)

/-- Modelled from the spec: one admission pass of the Exchange Client's
flow-control policy (the client implementation is not present under
`src/`): idle sources holding pages are admitted greedily, at most one
in-flight request per source, while the buffered-byte estimate (queued
bytes plus one page-size hint per in-flight request) stays under the
configured ceiling.  Returns the number of admitted requests and the
sources' remaining page counts. -/
def admitSources (ceiling pageSize : Nat) :
    List Nat → Nat → Nat × List Nat
  | [], _ => (0, [])
  | n :: rest, est =>
    if 0 < n ∧ est < ceiling then
      let r := admitSources ceiling pageSize rest (est + pageSize)
      (r.1 + 1, (n - 1) :: r.2)
    else
      let r := admitSources ceiling pageSize rest est
      (r.1, n :: r.2)

/-- State of the flow-control simulation: pages remaining at each source,
bytes currently buffered in the Exchange Queue, pages drained by the
consumer so far, and the peak buffered-byte total observed. -/
structure FlowState where
  pending : List Nat
  queuedBytes : Nat
  drained : Nat
  peak : Nat
deriving DecidableEq, Repr

/-- Modelled from the spec: one round of the fetch/drain loop: the client
runs an admission pass, the admitted fetches deliver one page each (the
peak buffered-byte total is updated), then the consumer drains one page
if any is buffered. -/
def flowRound (ceiling pageSize : Nat) (s : FlowState) : FlowState :=
  let a := admitSources ceiling pageSize s.pending s.queuedBytes
  let q1 := s.queuedBytes + a.1 * pageSize
  let peak1 := max s.peak q1
  if pageSize ≤ q1 then
    ⟨a.2, q1 - pageSize, s.drained + 1, peak1⟩
  else
    ⟨a.2, q1, s.drained, peak1⟩

/-- Iterate the fetch/drain round. -/
def flowRun (ceiling pageSize : Nat) : Nat → FlowState → FlowState
  | 0, s => s
  | n + 1, s => flowRun ceiling pageSize n (flowRound ceiling pageSize s)

/-- Scenario B: 10 sources holding 3 pages of 1000 bytes each, ceiling
3.5 × page size, run to quiescence (40 rounds more than suffice). -/
def flowScenario : FlowState :=
  flowRun 3500 1000 40 ⟨List.replicate 10 3, 0, 0, 0⟩

/-- Modelled from the spec: the bounded display length to which a remote
task id is truncated when embedded in a construction-failure error (128
characters in the test's expected message). -/
def kMaxTaskIdDisplayLength : Nat := 128

/-- Modelled from the spec: the task id as embedded in the error message,
truncated to the bounded display length. -/
def truncatedTaskId (taskId : List Char) : List Char :=
  taskId.take kMaxTaskIdDisplayLength

/-- Modelled from the spec: the construction-failure error message raised
synchronously by `addRemoteTaskId` when the registered Fetch Source
factory throws: it names the factory error and the (truncated) offending
task id. -/
def exchangeSourceErrorMessage (what taskId : List Char) : List Char :=
  "Failed to create ExchangeSource: ".toList ++ what ++
    ". Task ID: ".toList ++ truncatedTaskId taskId ++ ".".toList

theorem sumSizes_nil : sumSizes [] = 0 := rfl

theorem sumSizes_cons (p : Page) (l : List Page) :
    sumSizes (p :: l) = p.size + sumSizes l := by
  simp [sumSizes]

theorem sumSizes_append (a b : List Page) :
    sumSizes (a ++ b) = sumSizes a + sumSizes b := by
  simp [sumSizes]

/-- The drain loop returns a decomposition of the queue: taken pages
followed by the remaining ones reassemble the input. -/
theorem takePages_append (m : Nat) :
    ∀ (l : List Page) (acc : Nat) (flag : Bool),
      (takePages m l acc flag).1 ++ (takePages m l acc flag).2 = l
  | [], _, _ => rfl
  | p :: rest, acc, flag => by
    simp only [takePages]
    split
    · rfl
    · simpa using takePages_append m rest (acc + p.size) true

/-- On a nonempty queue the drain loop always takes the first page. -/
theorem takePages_cons (m : Nat) (p : Page) (rest : List Page) (acc : Nat) :
    takePages m (p :: rest) acc false =
      ((p :: (takePages m rest (acc + p.size) true).1),
        (takePages m rest (acc + p.size) true).2) := by
  simp [takePages]

/-- Front-page projection of the drain loop on a nonempty queue. -/
theorem takePages_cons_fst (m : Nat) (p : Page) (rest : List Page) (acc : Nat) :
    (takePages m (p :: rest) acc false).1 =
      p :: (takePages m rest (acc + p.size) true).1 := by
  simp [takePages]

/-- Once a page was taken, further pages are taken only while the byte
total stays within the budget. -/
theorem takePages_bound (m : Nat) :
    ∀ (l : List Page) (acc : Nat),
      (takePages m l acc true).1 = [] ∨
        acc + sumSizes (takePages m l acc true).1 ≤ m
  | [], _ => Or.inl rfl
  | p :: rest, acc => by
    by_cases h : m < acc + p.size
    · left
      simp [takePages, h]
    · right
      have hif : ¬((true && decide (m < acc + p.size)) = true) := by simp [h]
      simp only [takePages, if_neg hif]
      rcases takePages_bound m rest (acc + p.size) with h1 | h1
      · rw [sumSizes_cons, h1, sumSizes_nil]
        omega
      · rw [sumSizes_cons]
        omega

/-- A batch drained with budget `maxBytes` totals at most `maxBytes`
unless it is a single (oversized) page. -/
theorem takePages_total_le (m : Nat) (l : List Page) :
    sumSizes (takePages m l 0 false).1 ≤ m ∨
      (takePages m l 0 false).1.length = 1 := by
  cases l with
  | nil => left; simp [takePages, sumSizes_nil]
  | cons p rest =>
    rcases takePages_bound m rest (0 + p.size) with h | h
    · right
      rw [takePages_cons_fst, h]
      rfl
    · left
      rw [takePages_cons_fst, sumSizes_cons]
      omega

theorem QInv.init : QInv ExchangeQueue.init := by
  refine ⟨rfl, ?_, Nat.le_refl 0, Nat.le_refl 0⟩
  intro h
  exact absurd h (by decide)

theorem QInv.step {s : ExchangeQueue} (h : QInv s) (op : QOp) :
    QInv (applyOp s op) := by
  obtain ⟨h1, h2, h3, h4⟩ := h
  cases op with
  | addSource =>
    simp only [applyOp, ExchangeQueue.addSource]
    split
    · exact ⟨h1, h2, h3, h4⟩
    · exact ⟨h1, h2, h3, h4⟩
  | noMoreSources =>
    exact ⟨h1, h2, h3, h4⟩
  | enqueuePage p =>
    simp only [applyOp, ExchangeQueue.enqueuePage]
    split
    · exact ⟨h1, h2, h3, h4⟩
    · refine ⟨?_, ?_, ?_, ?_⟩
      · simp [sumSizes_append, sumSizes_cons, sumSizes_nil, h1]
      · intro hc
        next hnc => exact absurd hc hnc
      · simp
      · simp only
        have : s.totalBytes ≤ s.receivedBytes := le_trans h3 h4
        omega
  | enqueueEnd =>
    simp only [applyOp, ExchangeQueue.enqueueEnd]
    split
    · exact ⟨h1, h2, h3, h4⟩
    · split
      · exact ⟨h1, h2, h3, h4⟩
      · exact ⟨h1, h2, h3, h4⟩
  | doNext m =>
    simp only [applyOp, ExchangeQueue.next]
    split
    · exact ⟨h1, h2, h3, h4⟩
    · next hnc =>
      have hd := takePages_append m s.queue 0 false
      have hsum : s.totalBytes =
          sumSizes (takePages m s.queue 0 false).1 +
            sumSizes (takePages m s.queue 0 false).2 := by
        rw [h1, ← sumSizes_append, hd]
      split
      · refine ⟨?_, ?_, ?_, ?_⟩
        · simp only
          omega
        · intro hc
          simp only at hc
          exact absurd hc (by simpa using hnc)
        · simp only
          omega
        · exact h4
      · refine ⟨?_, ?_, ?_, ?_⟩
        · simp only
          omega
        · intro hc
          simp only at hc
          exact absurd hc (by simpa using hnc)
        · simp only
          omega
        · exact h4
  | close =>
    refine ⟨rfl, fun _ => rfl, Nat.zero_le _, h4⟩

theorem runFrom_inv {s : ExchangeQueue} (h : QInv s) :
    ∀ ops : List QOp, QInv (runFrom s ops)
  | [] => h
  | op :: rest => runFrom_inv (h.step op) rest

theorem runOps_inv (ops : List QOp) : QInv (runOps ops) :=
  runFrom_inv QInv.init ops

/-- The batch `next` returns, followed by the queue it leaves behind,
reassembles the queue it started from (no page is split or reordered). -/
theorem next_decomp (s : ExchangeQueue) (m : Nat) (hc : s.closed = false) :
    (s.next m).pages ++ (s.next m).state.queue = s.queue := by
  have hd := takePages_append m s.queue 0 false
  simp only [ExchangeQueue.next, hc, Bool.false_eq_true, if_false]
  split
  · next hcond =>
    have he : (takePages m s.queue 0 false).1 = [] := by
      have := (Bool.and_eq_true _ _).mp hcond
      simpa [List.isEmpty_iff] using this.1
    rw [he] at hd
    simpa using hd
  · exact hd

/-- On a non-closed queue holding at least one page, `next` returns a
nonempty batch. -/
theorem next_nonempty (s : ExchangeQueue) (m : Nat) (hc : s.closed = false)
    (hq : s.queue ≠ []) : (s.next m).pages ≠ [] := by
  rcases hql : s.queue with _ | ⟨p, rest⟩
  · exact absurd hql hq
  · simp only [ExchangeQueue.next, hc, Bool.false_eq_true, if_false]
    split
    · next hcond =>
      have he := (Bool.and_eq_true _ _).mp hcond
      rw [hql, takePages_cons_fst] at he
      simp [List.isEmpty_iff] at he
    · rw [hql, takePages_cons_fst]
      simp

/-- The batch `next` returns totals at most `maxBytes` unless it is a
single oversized page. -/
theorem next_bounded (s : ExchangeQueue) (m : Nat) :
    sumSizes (s.next m).pages ≤ m ∨ (s.next m).pages.length = 1 := by
  cases hc : s.closed with
  | true => left; simp [ExchangeQueue.next, hc, sumSizes_nil]
  | false =>
    simp only [ExchangeQueue.next, hc, Bool.false_eq_true, if_false]
    split
    · left; simp [sumSizes_nil]
    · exact takePages_total_le m s.queue

/-- C1: for every reachable Exchange Queue state and every `maxBytes`,
`next(maxBytes)` returns a batch whose total size is at most `maxBytes`
unless it is a single page (an oversized page is still returned alone);
it returns at least one page whenever any page is queued; and the batch
followed by the remaining queue reassembles the original queue, so a page
is never split across two `next` results. -/
theorem c1_next_batch_bounded (ops : List QOp) (m : Nat) :
    (sumSizes ((runOps ops).next m).pages ≤ m ∨
      ((runOps ops).next m).pages.length = 1) ∧
    ((runOps ops).queue ≠ [] → ((runOps ops).next m).pages ≠ []) ∧
    ((runOps ops).next m).pages ++ ((runOps ops).next m).state.queue =
      (runOps ops).queue := by
  have inv := runOps_inv ops
  refine ⟨next_bounded _ m, ?_, ?_⟩
  · intro hq
    cases hc : (runOps ops).closed with
    | true => exact absurd (inv.closed_empty hc) hq
    | false => exact next_nonempty _ m hc hq
  · cases hc : (runOps ops).closed with
    | true => simp [ExchangeQueue.next, hc]
    | false => exact next_decomp _ m hc

/-- Witness for C1 at a concrete execution: one source enqueues a
1000-byte and a 600-byte page; `next(1)` still returns a (single) page. -/
theorem c1_next_batch_bounded_witness :
    (sumSizes ((runOps [QOp.addSource, QOp.enqueuePage ⟨0, 1000⟩,
        QOp.enqueuePage ⟨0, 600⟩]).next 1).pages ≤ 1 ∨
      ((runOps [QOp.addSource, QOp.enqueuePage ⟨0, 1000⟩,
        QOp.enqueuePage ⟨0, 600⟩]).next 1).pages.length = 1) ∧
    ((runOps [QOp.addSource, QOp.enqueuePage ⟨0, 1000⟩,
        QOp.enqueuePage ⟨0, 600⟩]).next 1).pages ≠ [] := by
  have h := c1_next_batch_bounded
    [QOp.addSource, QOp.enqueuePage ⟨0, 1000⟩, QOp.enqueuePage ⟨0, 600⟩] 1
  exact ⟨h.1, h.2.1 (by decide)⟩

/-- C2 counterexample: the claimed equivalence fails as stated.  In the
state reached by registering one source and receiving its end sentinel
(but before `noMoreSources`), every registered source has signaled end
(`numPending = 0`) and no pages remain, yet `next` reports
`atEnd = false`; conversely, after `close` with a source still pending,
`next` reports `atEnd = true`. -/
theorem c2_counterexample :
    ((runOps [QOp.addSource, QOp.enqueueEnd]).next 1).atEnd = false ∧
    (runOps [QOp.addSource, QOp.enqueueEnd]).numPending = 0 ∧
    (runOps [QOp.addSource, QOp.enqueueEnd]).queue = [] ∧
    ((runOps [QOp.addSource, QOp.close]).next 1).atEnd = true ∧
    (runOps [QOp.addSource, QOp.close]).numPending = 1 := by
  decide

/-- C2 (amended): for every Exchange Queue state (reachable ones
included), `next` reports `atEnd = true` iff the queue has been closed,
or the source set has been declared complete, every registered source has
signaled end-of-stream, and no pages remain after the drain. -/
theorem c2_amended_atEnd_iff (s : ExchangeQueue) (m : Nat) :
    ((s.next m).atEnd = true) ↔
      (s.closed = true ∨
        (s.noMoreSourcesFlag = true ∧ s.numPending = 0 ∧
          (s.next m).state.queue = [])) := by
  cases hc : s.closed with
  | true => simp [ExchangeQueue.next, hc]
  | false =>
    simp only [ExchangeQueue.next, hc, Bool.false_eq_true, if_false]
    split
    · next hcond =>
      have hae := (Bool.and_eq_true _ _).mp hcond
      simp only [Bool.not_eq_true'] at hae
      constructor
      · intro hfalse; exact absurd hfalse (by simp)
      · rintro (h | ⟨hn, hp, hq⟩)
        · cases h
        · exfalso
          simp only at hq
          simp [ExchangeQueue.checkAtEnd, hc, hn, hp, hq] at hae
    · next hcond =>
      simp [ExchangeQueue.checkAtEnd, hc, List.isEmpty_iff]
      tauto

/-- Ops other than `close` and data enqueues keep the closed flag false
and the received-page statistics unchanged. -/
theorem applyOp_received_stable (s : ExchangeQueue) (op : QOp)
    (h : s.closed = false) (hop : op ≠ QOp.close)
    (hnp : ∀ p, op ≠ QOp.enqueuePage p) :
    (applyOp s op).closed = false ∧
    (applyOp s op).receivedPages = s.receivedPages ∧
    (applyOp s op).receivedBytes = s.receivedBytes := by
  cases op with
  | addSource =>
    simp only [applyOp, ExchangeQueue.addSource]
    split <;> exact ⟨h, rfl, rfl⟩
  | noMoreSources => exact ⟨h, rfl, rfl⟩
  | enqueuePage p => exact absurd rfl (hnp p)
  | enqueueEnd =>
    simp only [applyOp, ExchangeQueue.enqueueEnd, h, Bool.false_eq_true, if_false]
    split <;> exact ⟨rfl, rfl, rfl⟩
  | doNext m =>
    simp only [applyOp, ExchangeQueue.next, h, Bool.false_eq_true, if_false]
    split <;> exact ⟨rfl, rfl, rfl⟩
  | close => exact absurd rfl hop

/-- A data enqueue on a non-closed queue bumps the received-page
statistics by one page of its size. -/
theorem applyOp_received_enqueue (s : ExchangeQueue) (p : Page)
    (h : s.closed = false) :
    (applyOp s (QOp.enqueuePage p)).closed = false ∧
    (applyOp s (QOp.enqueuePage p)).receivedPages = s.receivedPages + 1 ∧
    (applyOp s (QOp.enqueuePage p)).receivedBytes = s.receivedBytes + p.size := by
  simp [applyOp, ExchangeQueue.enqueuePage, h]

/-- Along any close-free execution from a non-closed state, the
received-page statistics accumulate exactly the enqueued pages. -/
theorem runFrom_stats :
    ∀ (ops : List QOp) (s : ExchangeQueue), s.closed = false →
      QOp.close ∉ ops →
      (runFrom s ops).closed = false ∧
      (runFrom s ops).receivedPages =
        s.receivedPages + (traceEnqueued ops).length ∧
      (runFrom s ops).receivedBytes =
        s.receivedBytes + sumSizes (traceEnqueued ops)
  | [], s, h, _ => by
    refine ⟨h, ?_, ?_⟩ <;> simp [runFrom, traceEnqueued, sumSizes_nil]
  | op :: rest, s, h, hmem => by
    have hmem' : QOp.close ∉ rest := fun hr => hmem (List.mem_cons_of_mem _ hr)
    have hop : op ≠ QOp.close := by
      intro he
      exact hmem (he ▸ List.mem_cons_self op rest)
    have hrun : runFrom s (op :: rest) = runFrom (applyOp s op) rest := rfl
    cases op with
    | enqueuePage p =>
      obtain ⟨hs1, hs2, hs3⟩ := applyOp_received_enqueue s p h
      have ih := runFrom_stats rest (applyOp s (QOp.enqueuePage p)) hs1 hmem'
      rw [hrun]
      refine ⟨ih.1, ?_, ?_⟩
      · rw [ih.2.1, hs2]
        simp [traceEnqueued]
        omega
      · rw [ih.2.2, hs3]
        simp [traceEnqueued, sumSizes_cons]
        omega
    | addSource =>
      obtain ⟨hs1, hs2, hs3⟩ :=
        applyOp_received_stable s QOp.addSource h hop (fun p h' => nomatch h')
      have ih := runFrom_stats rest _ hs1 hmem'
      rw [hrun]
      exact ⟨ih.1, by rw [ih.2.1, hs2]; rfl, by rw [ih.2.2, hs3]; rfl⟩
    | noMoreSources =>
      obtain ⟨hs1, hs2, hs3⟩ :=
        applyOp_received_stable s QOp.noMoreSources h hop (fun p h' => nomatch h')
      have ih := runFrom_stats rest _ hs1 hmem'
      rw [hrun]
      exact ⟨ih.1, by rw [ih.2.1, hs2]; rfl, by rw [ih.2.2, hs3]; rfl⟩
    | enqueueEnd =>
      obtain ⟨hs1, hs2, hs3⟩ :=
        applyOp_received_stable s QOp.enqueueEnd h hop (fun p h' => nomatch h')
      have ih := runFrom_stats rest _ hs1 hmem'
      rw [hrun]
      exact ⟨ih.1, by rw [ih.2.1, hs2]; rfl, by rw [ih.2.2, hs3]; rfl⟩
    | doNext m =>
      obtain ⟨hs1, hs2, hs3⟩ :=
        applyOp_received_stable s (QOp.doNext m) h hop (fun p h' => nomatch h')
      have ih := runFrom_stats rest _ hs1 hmem'
      rw [hrun]
      exact ⟨ih.1, by rw [ih.2.1, hs2]; rfl, by rw [ih.2.2, hs3]; rfl⟩
    | close => exact absurd rfl hop

/-- C8: after any close-free sequence of operations, `numReceivedPages`
equals the number of non-sentinel pages enqueued across all sources,
`receivedBytes` equals their total size, and `averageReceivedPageBytes`
is the truncating integer quotient of the two. -/
theorem c8_received_page_stats (ops : List QOp) (h : QOp.close ∉ ops) :
    (runOps ops).receivedPages = (traceEnqueued ops).length ∧
    (runOps ops).receivedBytes = sumSizes (traceEnqueued ops) ∧
    (runOps ops).averageReceivedPageBytes =
      sumSizes (traceEnqueued ops) / (traceEnqueued ops).length := by
  obtain ⟨_, h1, h2⟩ := runFrom_stats ops ExchangeQueue.init rfl h
  have h1' : (runOps ops).receivedPages = (traceEnqueued ops).length := by
    simpa [runOps, ExchangeQueue.init] using h1
  have h2' : (runOps ops).receivedBytes = sumSizes (traceEnqueued ops) := by
    simpa [runOps, ExchangeQueue.init] using h2
  exact ⟨h1', h2', by rw [ExchangeQueue.averageReceivedPageBytes, h1', h2']⟩

/-- Witness for C8: two pages of 100 and 51 bytes; the average is the
truncating quotient 151 / 2 = 75. -/
theorem c8_received_page_stats_witness :
    (runOps [QOp.addSource, QOp.enqueuePage ⟨0, 100⟩, QOp.enqueuePage ⟨0, 51⟩,
        QOp.doNext 1000]).receivedPages = 2 ∧
    (runOps [QOp.addSource, QOp.enqueuePage ⟨0, 100⟩, QOp.enqueuePage ⟨0, 51⟩,
        QOp.doNext 1000]).averageReceivedPageBytes = 75 := by
  have h := c8_received_page_stats
    [QOp.addSource, QOp.enqueuePage ⟨0, 100⟩, QOp.enqueuePage ⟨0, 51⟩,
      QOp.doNext 1000] (by decide)
  exact ⟨by rw [h.1]; rfl, by rw [h.2.2]; rfl⟩

/-- One step never lowers the peak-bytes high-water mark. -/
theorem applyOp_peak_mono (s : ExchangeQueue) (op : QOp) :
    s.peakBytes ≤ (applyOp s op).peakBytes := by
  cases op with
  | addSource =>
    simp only [applyOp, ExchangeQueue.addSource]
    split <;> exact Nat.le_refl _
  | noMoreSources => exact Nat.le_refl _
  | enqueuePage p =>
    simp only [applyOp, ExchangeQueue.enqueuePage]
    split
    · exact Nat.le_refl _
    · exact le_max_left _ _
  | enqueueEnd =>
    simp only [applyOp, ExchangeQueue.enqueueEnd]
    split
    · exact Nat.le_refl _
    · split <;> exact Nat.le_refl _
  | doNext m =>
    simp only [applyOp, ExchangeQueue.next]
    split
    · exact Nat.le_refl _
    · split <;> exact Nat.le_refl _
  | close => exact Nat.le_refl _

/-- The peak-bytes high-water mark never decreases along an execution. -/
theorem runFrom_peak_mono :
    ∀ (ops : List QOp) (s : ExchangeQueue),
      s.peakBytes ≤ (runFrom s ops).peakBytes
  | [], _ => Nat.le_refl _
  | op :: rest, s =>
    le_trans (applyOp_peak_mono s op) (runFrom_peak_mono rest (applyOp s op))

/-- Received bytes are bounded by the bytes of all pages ever enqueued
(even when pages enqueued after close are dropped). -/
theorem runFrom_received_le :
    ∀ (ops : List QOp) (s : ExchangeQueue),
      (runFrom s ops).receivedBytes ≤
        s.receivedBytes + sumSizes (traceEnqueued ops)
  | [], s => by simp [runFrom, traceEnqueued, sumSizes_nil]
  | op :: rest, s => by
    have hrun : runFrom s (op :: rest) = runFrom (applyOp s op) rest := rfl
    have ih := runFrom_received_le rest (applyOp s op)
    rw [hrun]
    have hstep : (applyOp s op).receivedBytes ≤
        s.receivedBytes + sumSizes (traceEnqueued [op]) := by
      cases op with
      | addSource =>
        simp only [applyOp, ExchangeQueue.addSource]
        split <;> simp [traceEnqueued, sumSizes_nil]
      | noMoreSources =>
        simp [applyOp, ExchangeQueue.noMoreSources, traceEnqueued, sumSizes_nil]
      | enqueuePage p =>
        simp only [applyOp, ExchangeQueue.enqueuePage]
        split
        · simp [traceEnqueued, sumSizes_cons, sumSizes_nil]
        · simp [traceEnqueued, sumSizes_cons, sumSizes_nil]
      | enqueueEnd =>
        simp only [applyOp, ExchangeQueue.enqueueEnd]
        split
        · simp [traceEnqueued, sumSizes_nil]
        · split <;> simp [traceEnqueued, sumSizes_nil]
      | doNext m =>
        simp only [applyOp, ExchangeQueue.next]
        split
        · simp [traceEnqueued, sumSizes_nil]
        · split <;> simp [traceEnqueued, sumSizes_nil]
      | close =>
        simp [applyOp, ExchangeQueue.close, traceEnqueued, sumSizes_nil]
    calc (runFrom (applyOp s op) rest).receivedBytes
        ≤ (applyOp s op).receivedBytes + sumSizes (traceEnqueued rest) := ih
      _ ≤ s.receivedBytes + sumSizes (traceEnqueued [op]) +
            sumSizes (traceEnqueued rest) := by omega
      _ = s.receivedBytes + sumSizes (traceEnqueued (op :: rest)) := by
          cases op <;> (simp [traceEnqueued, sumSizes_cons, sumSizes_nil]; try omega)

/-- C9: along every execution, `peakBytes` is a high-water mark: at the
end of the execution it is at least the instantaneous buffered-byte total
of every earlier point, never decreases as the execution extends, and is
bounded by the total bytes of all pages ever enqueued. -/
theorem c9_peak_high_water_mark (ops pre suf : List QOp)
    (h : ops = pre ++ suf) :
    (runOps pre).totalBytes ≤ (runOps ops).peakBytes ∧
    (runOps pre).peakBytes ≤ (runOps ops).peakBytes ∧
    (runOps ops).peakBytes ≤ sumSizes (traceEnqueued ops) := by
  have hsplit : runOps ops = runFrom (runOps pre) suf := by
    rw [h, runOps, runFrom, List.foldl_append]
    rfl
  have hmono : (runOps pre).peakBytes ≤ (runOps ops).peakBytes := by
    rw [hsplit]; exact runFrom_peak_mono suf (runOps pre)
  refine ⟨le_trans (runOps_inv pre).peak_ge hmono, hmono, ?_⟩
  have h1 := (runOps_inv ops).peak_le
  have h2 := runFrom_received_le ops ExchangeQueue.init
  simp only [ExchangeQueue.init] at h2
  exact le_trans h1 (by simpa using h2)

/-- Witness for C9 at a concrete execution: a 5-byte page is enqueued and
then drained; the peak stays 5 although the buffered total returns to 0. -/
theorem c9_peak_high_water_mark_witness :
    (runOps [QOp.addSource, QOp.enqueuePage ⟨0, 5⟩]).totalBytes ≤
      (runOps [QOp.addSource, QOp.enqueuePage ⟨0, 5⟩, QOp.doNext 10]).peakBytes ∧
    (runOps [QOp.addSource, QOp.enqueuePage ⟨0, 5⟩, QOp.doNext 10]).peakBytes ≤
      sumSizes (traceEnqueued [QOp.addSource, QOp.enqueuePage ⟨0, 5⟩, QOp.doNext 10]) := by
  have h := c9_peak_high_water_mark
    [QOp.addSource, QOp.enqueuePage ⟨0, 5⟩, QOp.doNext 10]
    [QOp.addSource, QOp.enqueuePage ⟨0, 5⟩] [QOp.doNext 10] (by decide)
  exact ⟨h.1, h.2.2⟩

/-- Once closed, a queue stays closed under every operation. -/
theorem applyOp_closed_mono (s : ExchangeQueue) (op : QOp)
    (h : s.closed = true) : (applyOp s op).closed = true := by
  cases op with
  | addSource =>
    simp only [applyOp, ExchangeQueue.addSource]
    split <;> simp [h]
  | noMoreSources => exact h
  | enqueuePage p => simp [applyOp, ExchangeQueue.enqueuePage, h]
  | enqueueEnd => simp [applyOp, ExchangeQueue.enqueueEnd, h]
  | doNext m => simp [applyOp, ExchangeQueue.next, h]
  | close => rfl

/-- From a closed queue no page is ever drained again. -/
theorem traceDrained_closed :
    ∀ (ops : List QOp) (s : ExchangeQueue), s.closed = true →
      traceDrained s ops = []
  | [], _, _ => rfl
  | op :: rest, s, h => by
    have hrest := traceDrained_closed rest (applyOp s op) (applyOp_closed_mono s op h)
    cases op with
    | doNext m =>
      have hp : (s.next m).pages = [] := by simp [ExchangeQueue.next, h]
      simp [traceDrained, hp, hrest]
    | addSource => simpa [traceDrained] using hrest
    | noMoreSources => simpa [traceDrained] using hrest
    | enqueuePage p => simpa [traceDrained] using hrest
    | enqueueEnd => simpa [traceDrained] using hrest
    | close => simpa [traceDrained] using hrest

/-- Global FIFO: the pages drained along any execution form a prefix of
the queued pages at the start followed by the pages enqueued along the
execution. -/
theorem trace_decomposition :
    ∀ (ops : List QOp) (s : ExchangeQueue),
      ∃ t, traceDrained s ops ++ t = s.queue ++ traceEnqueued ops
  | [], s => ⟨s.queue, by simp [traceDrained, traceEnqueued]⟩
  | op :: rest, s => by
    cases hc : s.closed with
    | true =>
      rw [traceDrained_closed (op :: rest) s hc]
      exact ⟨s.queue ++ traceEnqueued (op :: rest), rfl⟩
    | false =>
      cases op with
      | enqueuePage p =>
        obtain ⟨t, ht⟩ := trace_decomposition rest (applyOp s (QOp.enqueuePage p))
        refine ⟨t, ?_⟩
        have hq : (applyOp s (QOp.enqueuePage p)).queue = s.queue ++ [p] := by
          simp [applyOp, ExchangeQueue.enqueuePage, hc]
        rw [hq] at ht
        have hd : traceDrained s (QOp.enqueuePage p :: rest) =
            traceDrained (applyOp s (QOp.enqueuePage p)) rest := rfl
        rw [hd, ht]
        simp [traceEnqueued]
      | doNext m =>
        obtain ⟨t, ht⟩ := trace_decomposition rest (applyOp s (QOp.doNext m))
        refine ⟨t, ?_⟩
        have hd : traceDrained s (QOp.doNext m :: rest) =
            (s.next m).pages ++ traceDrained (applyOp s (QOp.doNext m)) rest := rfl
        have hq : (applyOp s (QOp.doNext m)).queue = (s.next m).state.queue := rfl
        rw [hq] at ht
        rw [hd, List.append_assoc, ht, ← List.append_assoc,
          next_decomp s m hc]
        have he : traceEnqueued (QOp.doNext m :: rest) = traceEnqueued rest := rfl
        rw [he]
      | close =>
        have hclosed : (applyOp s QOp.close).closed = true := rfl
        have hd : traceDrained s (QOp.close :: rest) =
            traceDrained (applyOp s QOp.close) rest := rfl
        rw [hd, traceDrained_closed rest _ hclosed]
        exact ⟨s.queue ++ traceEnqueued (QOp.close :: rest), rfl⟩
      | addSource =>
        obtain ⟨t, ht⟩ := trace_decomposition rest (applyOp s QOp.addSource)
        refine ⟨t, ?_⟩
        have hq : (applyOp s QOp.addSource).queue = s.queue := by
          simp only [applyOp, ExchangeQueue.addSource]
          split <;> rfl
        have hd : traceDrained s (QOp.addSource :: rest) =
            traceDrained (applyOp s QOp.addSource) rest := rfl
        rw [hd, ht, hq]
        rfl
      | noMoreSources =>
        obtain ⟨t, ht⟩ := trace_decomposition rest (applyOp s QOp.noMoreSources)
        refine ⟨t, ?_⟩
        have hq : (applyOp s QOp.noMoreSources).queue = s.queue := rfl
        have hd : traceDrained s (QOp.noMoreSources :: rest) =
            traceDrained (applyOp s QOp.noMoreSources) rest := rfl
        rw [hd, ht, hq]
        rfl
      | enqueueEnd =>
        obtain ⟨t, ht⟩ := trace_decomposition rest (applyOp s QOp.enqueueEnd)
        refine ⟨t, ?_⟩
        have hq : (applyOp s QOp.enqueueEnd).queue = s.queue := by
          simp only [applyOp, ExchangeQueue.enqueueEnd, hc, Bool.false_eq_true,
            if_false]
          split <;> rfl
        have hd : traceDrained s (QOp.enqueueEnd :: rest) =
            traceDrained (applyOp s QOp.enqueueEnd) rest := rfl
        rw [hd, ht, hq]
        rfl

/-- C3: along every execution, the pages the consumer drains are a prefix
of the pages enqueued, both globally and restricted to the pages of any
one source: each source's pages are delivered in exactly the FIFO order in
which that source enqueued them. -/
theorem c3_per_source_fifo (ops : List QOp) (src : Nat) :
    prefixOf (traceDrained ExchangeQueue.init ops) (traceEnqueued ops) ∧
    prefixOf
      ((traceDrained ExchangeQueue.init ops).filter (fun p => p.source == src))
      ((traceEnqueued ops).filter (fun p => p.source == src)) := by
  obtain ⟨t, ht⟩ := trace_decomposition ops ExchangeQueue.init
  have ht' : traceDrained ExchangeQueue.init ops ++ t = traceEnqueued ops := by
    simpa [ExchangeQueue.init] using ht
  constructor
  · exact ⟨t, ht'⟩
  · refine ⟨t.filter (fun p => p.source == src), ?_⟩
    rw [← List.filter_append, ht']

/-- C10: `next` hands out a valid pending continuation exactly when it
returns an empty batch on a queue that is neither at end nor closed; in
particular a nonempty batch always comes with an invalid continuation. -/
theorem c10_continuation_validity (s : ExchangeQueue) (m : Nat) :
    ((s.next m).pages ≠ [] → (s.next m).contValid = false) ∧
    ((s.next m).contValid = true ↔
      ((s.next m).pages = [] ∧ (s.next m).atEnd = false ∧
        s.closed = false)) := by
  cases hc : s.closed with
  | true => simp [ExchangeQueue.next, hc]
  | false =>
    simp only [ExchangeQueue.next, hc, Bool.false_eq_true, if_false]
    split
    · next hcond =>
      have hae := (Bool.and_eq_true _ _).mp hcond
      simp only [List.isEmpty_iff] at hae
      simp [hae.1]
    · next hcond =>
      constructor
      · intro _; rfl
      · constructor
        · intro hfalse; exact absurd hfalse (by simp)
        · rintro ⟨hp, hae, _⟩
          exfalso
          apply hcond
          refine (Bool.and_eq_true _ _).mpr ⟨?_, ?_⟩
          · simpa [List.isEmpty_iff] using hp
          · simpa using hae

/-- C5: the Producer Buffer's backpressure contract: an enqueue is
non-blocked exactly while the buffered bytes stay under the ceiling, and
then leaves no continuation pending; a blocked enqueue leaves one more
continuation pending; acknowledging resolves every pending producer
continuation exactly when enough bytes were released to fall back under
the ceiling; and after all pages are drained and no-more-data is
signaled, a final read returns an empty batch with `atEnd = true`. -/
theorem c5_producer_buffer_backpressure (s : ProducerBuffer) (p : Page)
    (k m : Nat) :
    ((s.enqueue p).blocked = false ↔ s.bufferedBytes + p.size < s.ceiling) ∧
    ((s.enqueue p).blocked = false →
      (s.enqueue p).state.numBlockedProducers = s.numBlockedProducers) ∧
    ((s.enqueue p).blocked = true →
      (s.enqueue p).state.numBlockedProducers = s.numBlockedProducers + 1) ∧
    ((s.acknowledge k).bufferedBytes < s.ceiling →
      (s.acknowledge k).numBlockedProducers = 0) ∧
    (s.ceiling ≤ (s.acknowledge k).bufferedBytes →
      (s.acknowledge k).numBlockedProducers = s.numBlockedProducers) ∧
    (s.pages = [] → s.noMoreDataFlag = true → s.getData m = ([], true)) := by
  refine ⟨?_, ?_, ?_, ?_, ?_, ?_⟩
  · simp [ProducerBuffer.enqueue]
  · intro h
    simp only [ProducerBuffer.enqueue, decide_eq_false_iff_not, Nat.not_le] at h
    simp [ProducerBuffer.enqueue, Nat.not_le.mpr h]
  · intro h
    simp only [ProducerBuffer.enqueue, decide_eq_true_eq] at h
    simp [ProducerBuffer.enqueue, h]
  · intro h
    simp only [ProducerBuffer.acknowledge] at h ⊢
    simp [h]
  · intro h
    simp only [ProducerBuffer.acknowledge] at h ⊢
    rw [if_neg (by omega)]
  · intro h1 h2
    simp [ProducerBuffer.getData, h1, h2, takePages]

/-- Witness for C5 at the concrete Scenario C inputs: ceiling 2048, pages
of 1024 bytes.  The first page does not block; from the one-page state the
second page blocks; acknowledging both pages resolves the blocked
producer; the drained, no-more-data buffer reports end of data. -/
theorem c5_producer_buffer_backpressure_witness :
    ((ProducerBuffer.enqueue ⟨[], 0, 2048, false, 0⟩ ⟨0, 1024⟩).blocked = false ∧
      (ProducerBuffer.enqueue ⟨[], 0, 2048, false, 0⟩
        ⟨0, 1024⟩).state.numBlockedProducers = 0) ∧
    ((ProducerBuffer.enqueue ⟨[⟨0, 1024⟩], 1024, 2048, false, 0⟩
        ⟨0, 1024⟩).blocked = true ∧
      (ProducerBuffer.enqueue ⟨[⟨0, 1024⟩], 1024, 2048, false, 0⟩
        ⟨0, 1024⟩).state.numBlockedProducers = 1) ∧
    (ProducerBuffer.acknowledge ⟨[⟨0, 1024⟩, ⟨0, 1024⟩], 2048, 2048, false, 1⟩
        2).numBlockedProducers = 0 ∧
    ProducerBuffer.getData ⟨[], 0, 2048, true, 0⟩ 1 = ([], true) := by
  refine ⟨⟨by decide, ?_⟩, ⟨by decide, ?_⟩, ?_, ?_⟩
  · exact (c5_producer_buffer_backpressure ⟨[], 0, 2048, false, 0⟩ ⟨0, 1024⟩
      0 0).2.1 (by decide)
  · exact (c5_producer_buffer_backpressure ⟨[⟨0, 1024⟩], 1024, 2048, false, 0⟩
      ⟨0, 1024⟩ 0 0).2.2.1 (by decide)
  · exact (c5_producer_buffer_backpressure
      ⟨[⟨0, 1024⟩, ⟨0, 1024⟩], 2048, 2048, false, 1⟩ ⟨0, 0⟩ 2 0).2.2.2.1
      (by decide)
  · exact (c5_producer_buffer_backpressure ⟨[], 0, 2048, true, 0⟩ ⟨0, 0⟩
      0 1).2.2.2.2.2 rfl rfl

set_option maxRecDepth 40000 in
/-- C4: in Scenario B — 10 sources of 3 pages of 1000 bytes under a
3.5-page flow-control ceiling — the admission policy drains all 30 pages
while the peak buffered-byte total never exceeds 4 page sizes. -/
theorem c4_flow_control_bounds :
    flowScenario.drained = 30 ∧
    flowScenario.queuedBytes = 0 ∧
    flowScenario.peak ≤ 4 * 1000 := by
  decide

/-- C7: the construction-failure error message contains the offending
task id as a literal substring whenever the id fits the display bound;
an id longer than the bound is embedded truncated to exactly the bound
(and the embedded portion is always a prefix of the id). -/
theorem c7_error_message_contains_task_id (what taskId : List Char) :
    (taskId.length ≤ kMaxTaskIdDisplayLength →
      ∃ pre post, pre ++ taskId ++ post = exchangeSourceErrorMessage what taskId) ∧
    (kMaxTaskIdDisplayLength < taskId.length →
      (truncatedTaskId taskId).length = kMaxTaskIdDisplayLength) ∧
    (∃ pre post,
      pre ++ truncatedTaskId taskId ++ post = exchangeSourceErrorMessage what taskId) := by
  refine ⟨?_, ?_, ?_⟩
  · intro hlen
    refine ⟨"Failed to create ExchangeSource: ".toList ++ what ++ ". Task ID: ".toList,
      ".".toList, ?_⟩
    rw [exchangeSourceErrorMessage, truncatedTaskId, List.take_of_length_le hlen]
  · intro hlen
    rw [truncatedTaskId, List.length_take]
    omega
  · refine ⟨"Failed to create ExchangeSource: ".toList ++ what ++ ". Task ID: ".toList,
      ".".toList, ?_⟩
    rw [exchangeSourceErrorMessage]

/-- Witness for C7: the concrete ids of Scenario D: `"task.1.2.3"` is
embedded verbatim; a 1024-character id is embedded truncated to exactly
128 characters. -/
theorem c7_error_message_contains_task_id_witness :
    (∃ pre post, pre ++ "task.1.2.3".toList ++ post =
      exchangeSourceErrorMessage "Testing error".toList "task.1.2.3".toList) ∧
    (truncatedTaskId (List.replicate 1024 'x')).length = 128 := by
  constructor
  · exact (c7_error_message_contains_task_id "Testing error".toList
      "task.1.2.3".toList).1
      (by decide)
  · exact (c7_error_message_contains_task_id "Testing error".toList
      (List.replicate 1024 'x')).2.1
      (by rw [List.length_replicate, kMaxTaskIdDisplayLength]; omega)

/-- Witness for C10 at a concrete state holding one 5-byte page: the
batch is nonempty, so the continuation handed out is invalid. -/
theorem c10_continuation_validity_witness :
    (ExchangeQueue.next ⟨[⟨0, 5⟩], 1, 1, true, false, 5, 5, 1, 5, 0⟩
      10).contValid = false :=
  (c10_continuation_validity ⟨[⟨0, 5⟩], 1, 1, true, false, 5, 5, 1, 5, 0⟩
    10).1 (by decide)

/-- C6: closing is idempotent; it leaves no outstanding consumer
continuation unresolved; and `next` after `close` returns an empty batch,
`atEnd = true` and an invalid continuation, leaving the state untouched
(it never blocks and never errors). -/
theorem c6_close_idempotent_safe (s : ExchangeQueue) (m : Nat) :
    s.close.close = s.close ∧
    s.close.numWaitingConsumers = 0 ∧
    (s.close.next m).pages = [] ∧
    (s.close.next m).atEnd = true ∧
    (s.close.next m).contValid = false ∧
    (s.close.next m).state = s.close := by
  refine ⟨rfl, rfl, ?_, ?_, ?_, ?_⟩ <;>
    simp [ExchangeQueue.next, ExchangeQueue.close]
